import Mathlib

/-!
Verification development for the winston repository's streaming-to-event
conversion layer: the utterance segmenter of `src/perception/service.py`
(`PerceptionService._process_loop`), the confidence scorer of
`src/perception/stt.py` (`_compute_confidence`, `WhisperSTT.transcribe`),
and the event-confirmation tracker of `scripts/detect_event.py` (`run`).

Probabilities and confidences are modelled as rationals (the Python code
computes with IEEE doubles; every comparison and arithmetic step the claims
depend on is exact at the inputs involved).  Audio chunks are abstract
values of a type parameter `α`; the code never inspects chunk contents in
the state machine, it only counts `len(speech_buffer) * chunk_size`.
-/

namespace Winston

/-! ## Data model: VAD segmenter (service.py lines 127-191) -/

/-- The VAD state machine states (`_WAITING` / `_SPEAKING`, service.py
lines 42-43; the `_SILENCE` constant at line 44 is never used by
`_process_loop`). -/
inductive SpeechState where
  | waiting
  | speaking
deriving DecidableEq, Repr

/-- Configuration values read at the top of `_process_loop`
(service.py lines 128-135).  `maxSamples` is the code's
`max_samples = int(max_speech_seconds * sample_rate)`. -/
structure VadConfig where
  onsetThreshold : ℚ
  offsetThreshold : ℚ
  minSpeechFrames : ℕ
  silenceFramesNeeded : ℕ
  chunkSize : ℕ
  maxSamples : ℕ
deriving DecidableEq, Repr

/-- The mutable loop state of `_process_loop` (service.py lines 137-140):
`state`, `speech_buffer`, `onset_counter`, `silence_counter`. -/
structure SegState (α : Type) where
  state : SpeechState
  speechBuffer : List α
  onsetCounter : ℕ
  silenceCounter : ℕ
deriving DecidableEq, Repr

/-- Initial loop state (service.py lines 137-140). -/
def initSeg (α : Type) : SegState α := ⟨.waiting, [], 0, 0⟩

/-- A SPEAKING state with empty buffer and zeroed counters, exactly the
state produced by the WAITING→SPEAKING transition (service.py
lines 154-157). -/
def speakInit (α : Type) : SegState α := ⟨.speaking, [], 0, 0⟩

/-- Observable effects of one loop iteration: the successor state, whether
the "speech started" side effect fired (`_publish_vad(is_speaking=True)`,
line 158), and the buffers handed to `_handle_utterance` (lines 174, 188),
in order. -/
structure StepOut (α : Type) where
  st : SegState α
  started : Bool
  flushes : List (List α)
deriving DecidableEq, Repr

/-- One iteration of `_process_loop` for a dequeued chunk with VAD
probability `prob` (service.py lines 148-191), with the Python control
flow flattened into nested conditionals:

* WAITING (lines 150-161): `prob >= onset_threshold` increments the onset
  counter and transitions to SPEAKING once it reaches `min_speech_frames`
  (clearing the buffer and both counters and emitting the start event);
  otherwise the onset counter resets to 0.
* SPEAKING (lines 163-191): the chunk is appended unconditionally
  (line 164).  If `prob < offset_threshold` the silence counter
  increments and, on reaching `silence_frames_needed`, the utterance is
  flushed (lines 166-177); otherwise the silence counter resets
  (line 179).  The hard-cap check (lines 181-191) then runs on the
  *current* buffer: after an offset flush the buffer is already empty, so
  the test is `0 * chunk_size >= max_samples`, which fires (flushing the
  empty buffer a second time) only when `max_samples = 0`; otherwise it
  compares the appended buffer's `len(speech_buffer) * chunk_size`
  against `max_samples` and forces a flush when reached. -/
def processLoopStep (cfg : VadConfig) (s : SegState α) (chunk : α) (prob : ℚ) :
    StepOut α :=
  match s.state with
  | .waiting =>
    if cfg.onsetThreshold ≤ prob then
      if cfg.minSpeechFrames ≤ s.onsetCounter + 1 then
        ⟨⟨.speaking, [], 0, 0⟩, true, []⟩
      else
        ⟨⟨.waiting, s.speechBuffer, s.onsetCounter + 1, s.silenceCounter⟩, false, []⟩
    else
      ⟨⟨.waiting, s.speechBuffer, 0, s.silenceCounter⟩, false, []⟩
  | .speaking =>
    if prob < cfg.offsetThreshold then
      if cfg.silenceFramesNeeded ≤ s.silenceCounter + 1 then
        if cfg.maxSamples ≤ 0 * cfg.chunkSize then
          ⟨⟨.waiting, [], 0, 0⟩, false, [s.speechBuffer ++ [chunk], []]⟩
        else
          ⟨⟨.waiting, [], 0, 0⟩, false, [s.speechBuffer ++ [chunk]]⟩
      else
        if cfg.maxSamples ≤ (s.speechBuffer.length + 1) * cfg.chunkSize then
          ⟨⟨.waiting, [], 0, 0⟩, false, [s.speechBuffer ++ [chunk]]⟩
        else
          ⟨⟨.speaking, s.speechBuffer ++ [chunk], s.onsetCounter,
            s.silenceCounter + 1⟩, false, []⟩
    else
      if cfg.maxSamples ≤ (s.speechBuffer.length + 1) * cfg.chunkSize then
        ⟨⟨.waiting, [], 0, 0⟩, false, [s.speechBuffer ++ [chunk]]⟩
      else
        ⟨⟨.speaking, s.speechBuffer ++ [chunk], s.onsetCounter, 0⟩, false, []⟩

/-- One full iteration of the `while self._running` loop including the
bounded-wait dequeue (service.py lines 142-146): `none` models
`queue.Empty` (the `continue`, lines 145-146), which touches nothing. -/
def processTick (cfg : VadConfig) (s : SegState α) (input : Option (α × ℚ)) :
    StepOut α :=
  match input with
  | none => ⟨s, false, []⟩
  | some (chunk, prob) => processLoopStep cfg s chunk prob

/-! ### Observation functions over runs of the loop -/

/-- Final loop state after feeding `(chunk, probability)` pairs in order. -/
def segFinal (cfg : VadConfig) (s : SegState α) : List (α × ℚ) → SegState α
  | [] => s
  | (c, p) :: rest => segFinal cfg (processLoopStep cfg s c p).st rest

/-- Whether a "speech started" side effect fires anywhere in the run. -/
def anyStart (cfg : VadConfig) (s : SegState α) : List (α × ℚ) → Bool
  | [] => false
  | (c, p) :: rest =>
    (processLoopStep cfg s c p).started ||
      anyStart cfg (processLoopStep cfg s c p).st rest

/-- Indices (0-based, counting processed chunks) at which the
"speech started" side effect fires. -/
def startIdxs (cfg : VadConfig) (s : SegState α) : List (α × ℚ) → List ℕ
  | [] => []
  | (c, p) :: rest =>
    (if (processLoopStep cfg s c p).started then [0] else []) ++
      (startIdxs cfg (processLoopStep cfg s c p).st rest).map (· + 1)

/-- All `(index, buffer)` pairs handed to `_handle_utterance` during the
run, in order. -/
def flushTrace (cfg : VadConfig) (s : SegState α) : List (α × ℚ) → List (ℕ × List α)
  | [] => []
  | (c, p) :: rest =>
    ((processLoopStep cfg s c p).flushes.map (fun b => (0, b))) ++
      (flushTrace cfg (processLoopStep cfg s c p).st rest).map
        (fun e => (e.1 + 1, e.2))

/-- Index of the first frame whose processing hands a buffer to
`_handle_utterance`, if any. -/
def firstFlushIdx (cfg : VadConfig) (s : SegState α) : List (α × ℚ) → Option ℕ
  | [] => none
  | (c, p) :: rest =>
    if (processLoopStep cfg s c p).flushes.isEmpty then
      (firstFlushIdx cfg (processLoopStep cfg s c p).st rest).map (· + 1)
    else
      some 0

/-! ## Confidence scorer (stt.py lines 49-67 and 80-91) -/

/-- stt.py line 88: `LOW, HIGH = -1.5, -0.3`. -/
def LOW : ℚ := -15 / 10

/-- stt.py line 88. -/
def HIGH : ℚ := -3 / 10

/-- `_compute_confidence` (stt.py lines 80-91): linear map of
`avg_logprob` from `[LOW, HIGH]` to `[0, 1]`, clamped, then scaled by
`1 - no_speech_prob`. -/
def compute_confidence (avg_logprob no_speech_prob : ℚ) : ℚ :=
  max 0 (min 1 ((avg_logprob - LOW) / (HIGH - LOW))) * (1 - no_speech_prob)

/-- The `(avg_logprob, no_speech_prob)` pair `WhisperSTT.transcribe`
derives from the segment list (stt.py lines 52-57): segment-wise means, or
`(-1.0, 1.0)` when there are no segments.  A segment is modelled by its
`(avg_logprob, no_speech_prob)` pair. -/
def transcribeScores (segments : List (ℚ × ℚ)) : ℚ × ℚ :=
  if segments.isEmpty then (-1, 1)
  else ((segments.map Prod.fst).sum / segments.length,
        (segments.map Prod.snd).sum / segments.length)

/-- The confidence `WhisperSTT.transcribe` attaches to a result with the
given segments (stt.py line 59). -/
def transcribeConfidence (segments : List (ℚ × ℚ)) : ℚ :=
  compute_confidence (transcribeScores segments).1 (transcribeScores segments).2

/-! ## Audio queue (service.py lines 61 and 102-106) -/

/-- Operations on the audio queue: the capture callback's
`self._audio_queue.put(...)` and the consumer's successful
`self._audio_queue.get(...)`. -/
inductive QueueOp where
  | put
  | get
deriving DecidableEq, Repr

/-- Number of chunks held by the audio queue after a sequence of
operations.  Service.py line 61 constructs `queue.Queue()` with no
`maxsize`, i.e. an unbounded FIFO: `put` always succeeds immediately and
grows the queue by one; a successful `get` removes one (a `get` on an
empty queue removes nothing, matching the `queue.Empty` timeout). -/
def audioQueueSize (ops : List QueueOp) : ℕ :=
  ops.foldl (fun s op => match op with | .put => s + 1 | .get => s - 1) 0

/-! ## Event confirmation tracker (detect_event.py `run`, lines 139-241) -/

/-- detect_event.py line 45. -/
def NONE_LABEL : String := "NONE"

/-- The per-event counter update of detect_event.py lines 188-193: the
counter of the label equal to the detected one increments, every other
counter resets to 0.  Counters are the `{label: count}` dict, modelled as
an association list in dict (insertion) order. -/
def updateCounters (counters : List (String × ℕ)) (label : String) :
    List (String × ℕ) :=
  counters.map (fun lc => if label = lc.1 then (lc.1, lc.2 + 1) else (lc.1, 0))

/-- The trigger scan of detect_event.py lines 206-208: the first tracked
label (in dict order) whose counter has reached its configured threshold,
subject to the Python truthiness guard `if threshold` (a threshold of 0 is
falsy and can never trigger) and `tracked_label != NONE_LABEL`. -/
def findTrigger (confirmMap counters : List (String × ℕ)) : Option String :=
  (counters.find? (fun lc =>
    match List.lookup lc.1 confirmMap with
    | some t => decide (t ≠ 0) && decide (t ≤ lc.2) && decide (lc.1 ≠ NONE_LABEL)
    | none => false)).map Prod.fst

/-- The detection loop of detect_event.py lines 172-231, restricted to
frames with a successful capture and classification: each frame carries
the adapter's `(detected_label, confidence)` (the confidence plays no role
in the counter/trigger logic).  Returns the `(frame index, label)` of the
first confirmed event — the `return` at line 231 makes the tracker
single-shot — or `none` if the input ends without a trigger. -/
def runDetect (confirmMap : List (String × ℕ)) :
    List (String × ℚ) → List (String × ℕ) → Option (ℕ × String)
  | [], _ => none
  | (label, _) :: rest, counters =>
    match findTrigger confirmMap (updateCounters counters label) with
    | some l => some (0, l)
    | none =>
      (runDetect confirmMap rest (updateCounters counters label)).map
        (fun e => (e.1 + 1, e.2))

/-- Initial counters (detect_event.py line 165):
`{label: 0 for label in confirm_map}`. -/
def initCounters (confirmMap : List (String × ℕ)) : List (String × ℕ) :=
  confirmMap.map (fun lt => (lt.1, 0))

/-! ## Specification-side run-length helpers

These are not translations of repository code; they are the vocabulary in
which the claims about consecutive-frame runs are stated, and the
theorems below relate the machines above to them. -/

/-- `condRun test base i` is the length of the run of consecutive indices
satisfying `test` ending just before index `i`, seeded with `base` credit
before index 0 (it resets to 0 at every index failing `test`). -/
def condRun (test : ℕ → Bool) (base : ℕ) : ℕ → ℕ
  | 0 => base
  | i + 1 => if test i then condRun test base i + 1 else 0

/-- Frame `k` qualifies for onset: `probability ≥ onset_threshold`. -/
def onsetTest (cfg : VadConfig) (probs : List ℚ) (k : ℕ) : Bool :=
  decide (cfg.onsetThreshold ≤ probs.getD k 0)

/-- Frame `k` qualifies for offset: `probability < offset_threshold`. -/
def offsetTest (cfg : VadConfig) (probs : List ℚ) (k : ℕ) : Bool :=
  decide (probs.getD k 0 < cfg.offsetThreshold)

/-- Frame `k` carries exactly the label `l`. -/
def labelTest (labels : List String) (l : String) (k : ℕ) : Bool :=
  decide (labels.getD k "" = l)

/-- Flush condition at SPEAKING frame `j` with buffer/silence credit
`bl`/`sc` from before frame 0: a completed silence run, or the hard cap on
the appended buffer. -/
def CondC (cfg : VadConfig) (probs : List ℚ) (bl sc j : ℕ) : Prop :=
  cfg.silenceFramesNeeded ≤ condRun (offsetTest cfg probs) sc (j + 1) ∨
  cfg.maxSamples ≤ (bl + j + 1) * cfg.chunkSize

instance (cfg : VadConfig) (probs : List ℚ) (bl sc j : ℕ) :
    Decidable (CondC cfg probs bl sc j) := by
  unfold CondC; infer_instance

/-- The flush condition of claim C2, for a segmenter entering frame 0
fresh in SPEAKING: (a) the `silence_frames_needed` frames ending at `j`
are all below `offset_threshold`, or (b) the appended buffer of `j + 1`
chunks has reached `max_samples`. -/
def flushCond (cfg : VadConfig) (probs : List ℚ) (j : ℕ) : Prop :=
  (cfg.silenceFramesNeeded ≤ j + 1 ∧
    ∀ k < cfg.silenceFramesNeeded, probs.getD (j - k) 0 < cfg.offsetThreshold) ∨
  cfg.maxSamples ≤ (j + 1) * cfg.chunkSize

instance (cfg : VadConfig) (probs : List ℚ) (j : ℕ) :
    Decidable (flushCond cfg probs j) := by
  unfold flushCond; infer_instance

/-- The invariant tying a reachable segmenter state to the bounded-buffer
claim: a WAITING state holds no buffered chunks, and a SPEAKING buffer has
strictly fewer than `max_samples` buffered samples (the hard cap flushes
it within the step that reaches the bound). -/
def SegInv (cfg : VadConfig) (s : SegState α) : Prop :=
  (s.state = SpeechState.waiting → s.speechBuffer = []) ∧
  (s.speechBuffer = [] ∨ s.speechBuffer.length * cfg.chunkSize < cfg.maxSamples)

/-! ## Concrete example values used by the claims -/

/-- Claim C6 / Example 1 configuration: `onset=0.6, offset=0.4,
min_speech_frames=2, silence_frames=2` (chunk size and cap as in the
default audio config). -/
def exCfg : VadConfig := ⟨mkRat 6 10, mkRat 4 10, 2, 2, 512, 80000⟩

/-- Claim C6 / Example 1 input: probabilities
`[0.2, 0.7, 0.8, 0.3, 0.3, 0.2]`, chunks identified by their index. -/
def exInputs : List (ℕ × ℚ) :=
  [(0, mkRat 2 10), (1, mkRat 7 10), (2, mkRat 8 10),
   (3, mkRat 3 10), (4, mkRat 3 10), (5, mkRat 2 10)]

/-- A small configuration exhibiting the hard-cap overshoot: chunk size 2,
`max_samples` 3, onset confirmed after one frame of probability ≥ 0.5. -/
def capCfg : VadConfig := ⟨mkRat 1 2, mkRat 2 5, 1, 10, 2, 3⟩

/-- Three chunks of probability 0.9 — continuous speech. -/
def capInputs : List (ℕ × ℚ) := [(0, mkRat 9 10), (1, mkRat 9 10), (2, mkRat 9 10)]

/-- Claim C3 / Example 2 tracked labels: `{A: 3, B: 2}`. -/
def exM : List (String × ℕ) := [("A", 3), ("B", 2)]

/-- Claim C3 / Example 2 input labels `[A, A, B, B]` (confidences are
irrelevant to the logic; 1 throughout). -/
def exDetInputs : List (String × ℚ) := [("A", 1), ("A", 1), ("B", 1), ("B", 1)]

/-- A configuration for the C2 witness: silence run of 1 frame below
offset threshold 0.4 ends the utterance. -/
def wCfg : VadConfig := ⟨mkRat 6 10, mkRat 4 10, 2, 1, 512, 80000⟩

/-- C2 witness input: one speech frame then one silence frame. -/
def wInputs : List (ℕ × ℚ) := [(0, mkRat 9 10), (1, mkRat 1 10)]

/-! ## Helper lemmas -/

theorem audioQueue_foldl_replicate_put (n : ℕ) :
    ∀ s : ℕ, (List.replicate n QueueOp.put).foldl
      (fun s op => match op with | QueueOp.put => s + 1 | QueueOp.get => s - 1) s
      = s + n := by
  induction n with
  | zero => intro s; simp
  | succ n ih =>
    intro s
    simp only [List.replicate_succ, List.foldl_cons, ih]
    omega

theorem audioQueueSize_replicate_put (n : ℕ) :
    audioQueueSize (List.replicate n QueueOp.put) = n := by
  simpa [audioQueueSize] using audioQueue_foldl_replicate_put n 0

theorem updateCounters_countP_notMem (counters : List (String × ℕ))
    (label : String) (h : label ∉ counters.map Prod.fst) :
    (updateCounters counters label).countP (fun lc => lc.2 != 0) = 0 := by
  induction counters with
  | nil => simp [updateCounters]
  | cons hd tl ih =>
    simp only [List.map_cons, List.mem_cons, not_or] at h
    have hne : label ≠ hd.1 := h.1
    simp only [updateCounters, List.map_cons, List.countP_cons, if_neg hne]
    have := ih h.2
    simp only [updateCounters] at this
    simp [this]

/-! ## Claim theorems -/

/-- C10: a processing-loop iteration whose bounded-wait dequeue times out
(`queue.Empty`, service.py lines 145-146) leaves the segmenter state —
machine state, onset counter, silence counter and speech buffer — exactly
unchanged, emits no start event, and flushes nothing. -/
theorem C10_empty_tick_no_change (cfg : VadConfig) (s : SegState α) :
    (processTick cfg s none).st.state = s.state ∧
    (processTick cfg s none).st.onsetCounter = s.onsetCounter ∧
    (processTick cfg s none).st.silenceCounter = s.silenceCounter ∧
    (processTick cfg s none).st.speechBuffer = s.speechBuffer ∧
    (processTick cfg s none).started = false ∧
    (processTick cfg s none).flushes = [] :=
  ⟨rfl, rfl, rfl, rfl, rfl, rfl⟩

/-- C9 (counterexample): the audio queue of service.py line 61 is
`queue.Queue()` with no `maxsize`: there is NO fixed finite capacity
bounding the number of chunks it can hold across producer/consumer
executions — for every candidate capacity, a run of enough callback puts
exceeds it. -/
theorem C9_bounded_queue_cex :
    ¬ ∃ c : ℕ, ∀ ops : List QueueOp, audioQueueSize ops ≤ c := by
  rintro ⟨c, h⟩
  have := h (List.replicate (c + 1) QueueOp.put)
  rw [audioQueueSize_replicate_put] at this
  omega

/-- C9 (amended): the capture callback pushes each chunk into an
*unbounded* thread-safe FIFO queue and returns immediately (an unbounded
`put` never blocks); consequently the queue's occupancy is not bounded by
any fixed capacity: for every `c` there is an execution holding more than
`c` chunks. -/
theorem C9_unbounded_queue_amended (c : ℕ) :
    ∃ ops : List QueueOp, c < audioQueueSize ops :=
  ⟨List.replicate (c + 1) QueueOp.put, by rw [audioQueueSize_replicate_put]; omega⟩

/-- C4: the confidence scorer is the pure function
`clamp01((avg_logprob - LOW) / (HIGH - LOW)) * (1 - no_speech_prob)` with
`LOW = -1.5`, `HIGH = -0.3`; for `no_speech_prob ∈ [0, 1]` the result lies
in `[0, 1]`, `confidence(-0.3, 0) = 1` and `confidence(-1.5, 0.5) = 0`
exactly. -/
theorem C4_confidence_pure_function (a nsp : ℚ) (h0 : 0 ≤ nsp) (h1 : nsp ≤ 1) :
    (0 ≤ compute_confidence a nsp ∧ compute_confidence a nsp ≤ 1) ∧
    compute_confidence (-3/10) 0 = 1 ∧
    compute_confidence (-15/10) (1/2) = 0 := by
  refine ⟨⟨?_, ?_⟩, ?_, ?_⟩
  · exact mul_nonneg (le_max_left 0 _) (by linarith)
  · exact mul_le_one₀ (max_le (by norm_num) (min_le_left 1 _))
      (by linarith) (by linarith)
  · norm_num [compute_confidence, LOW, HIGH, min_def, max_def]
  · norm_num [compute_confidence, LOW, HIGH, min_def, max_def]

/-- Witness for C4 at `nsp = 0`. -/
theorem C4_confidence_pure_function_witness :
    (0 ≤ (0 : ℚ) ∧ (0 : ℚ) ≤ 1) ∧
    ((0 ≤ compute_confidence (-1) 0 ∧ compute_confidence (-1) 0 ≤ 1) ∧
      compute_confidence (-3/10) 0 = 1 ∧
      compute_confidence (-15/10) (1/2) = 0) :=
  ⟨⟨by norm_num, by norm_num⟩,
    C4_confidence_pure_function (-1) 0 (by norm_num) (by norm_num)⟩

/-- C5 (counterexample): a transcription result with no segments is scored
with `avg_logprob = -1.0`, `no_speech_prob = 1.0`, and the factor
`1 - no_speech_prob = 0` makes the resulting confidence EXACTLY 0 — not a
small positive value. -/
theorem C5_no_segments_confidence_cex : transcribeConfidence [] = 0 := by
  norm_num [transcribeConfidence, transcribeScores, compute_confidence,
    LOW, HIGH, min_def, max_def]

/-- C5 (amended): a transcription result with no segments is scored with
`avg_logprob = -1.0` and `no_speech_prob = 1.0` (stt.py lines 55-57), and
the resulting confidence is exactly 0. -/
theorem C5_no_segments_confidence_amended (segs : List (ℚ × ℚ))
    (h : segs = []) :
    transcribeScores segs = (-1, 1) ∧ transcribeConfidence segs = 0 := by
  subst h
  refine ⟨rfl, ?_⟩
  norm_num [transcribeConfidence, transcribeScores, compute_confidence,
    LOW, HIGH, min_def, max_def]

/-- Witness for C5 (amended) at the empty segment list. -/
theorem C5_no_segments_confidence_amended_witness :
    ([] : List (ℚ × ℚ)) = [] ∧
    (transcribeScores ([] : List (ℚ × ℚ)) = (-1, 1) ∧
      transcribeConfidence ([] : List (ℚ × ℚ)) = 0) :=
  ⟨rfl, C5_no_segments_confidence_amended [] rfl⟩

/-- C6 (counterexample): with `onset=0.6, offset=0.4, min_speech_frames=2,
silence_frames=2` and probabilities `[0.2,0.7,0.8,0.3,0.3,0.2]`, the flush
happens while processing index 4 and the flushed buffer is the chunks of
indices 3 and 4 — not at index 5 with chunks 2 through 4: the chunk of the
frame that triggers WAITING→SPEAKING (index 2) is consumed by the WAITING
branch and never appended. -/
theorem C6_example_trace_cex :
    flushTrace exCfg (initSeg ℕ) exInputs = [(4, [3, 4])] ∧
    flushTrace exCfg (initSeg ℕ) exInputs ≠ [(5, [2, 3, 4])] := by
  constructor
  · decide
  · decide

/-- C6 (amended): on Example 1 the segmenter enters SPEAKING at index 2,
ends the utterance (flushes) at index 4, and the flushed buffer contains
exactly the chunks of indices 3 and 4. -/
theorem C6_example_trace_amended :
    startIdxs exCfg (initSeg ℕ) exInputs = [2] ∧
    flushTrace exCfg (initSeg ℕ) exInputs = [(4, [3, 4])] := by
  constructor
  · decide
  · decide

/-- C8: after any single tracker counter update (detect_event.py lines
189-193) on counters with distinct labels (a Python dict), at most one
entry is non-zero, and every entry is a non-negative integer. -/
theorem C8_at_most_one_nonzero_counter (counters : List (String × ℕ))
    (label : String) (hnd : (counters.map Prod.fst).Nodup) :
    (updateCounters counters label).countP (fun lc => lc.2 != 0) ≤ 1 ∧
    ∀ lc ∈ updateCounters counters label, 0 ≤ lc.2 := by
  refine ⟨?_, fun lc _ => Nat.zero_le _⟩
  induction counters with
  | nil => simp [updateCounters]
  | cons hd tl ih =>
    simp only [List.map_cons, List.nodup_cons] at hnd
    by_cases hl : label = hd.1
    · have h0 : label ∉ tl.map Prod.fst := hl ▸ hnd.1
      have := updateCounters_countP_notMem tl label h0
      simp only [updateCounters, List.map_cons, List.countP_cons, if_pos hl]
      simp only [updateCounters] at this
      simp [this]
    · have := ih hnd.2
      simp only [updateCounters, List.map_cons, List.countP_cons, if_neg hl]
      simp only [updateCounters] at this
      simpa using this

/-- Witness for C8 at concrete counters. -/
theorem C8_at_most_one_nonzero_counter_witness :
    ((exM.map Prod.fst).Nodup) ∧
    ((updateCounters exM "A").countP (fun lc => lc.2 != 0) ≤ 1 ∧
      ∀ lc ∈ updateCounters exM "A", 0 ≤ lc.2) :=
  ⟨by decide, C8_at_most_one_nonzero_counter exM "A" (by decide)⟩

/-! ## Run-length lemmas -/

theorem condRun_succ (test : ℕ → Bool) (base i : ℕ) :
    condRun test base (i + 1) = if test i then condRun test base i + 1 else 0 :=
  rfl

theorem condRun_shift (test : ℕ → Bool) (base : ℕ) (i : ℕ) :
    condRun test base (i + 1) =
      condRun (fun k => test (k + 1)) (if test 0 then base + 1 else 0) i := by
  induction i with
  | zero => rfl
  | succ i ih =>
    rw [condRun_succ test base (i + 1), ih,
      condRun_succ (fun k => test (k + 1)) (if test 0 then base + 1 else 0) i]

theorem condRun_window (test : ℕ → Bool) (n : ℕ) :
    ∀ i, n ≤ condRun test 0 i ↔ n ≤ i ∧ ∀ k < n, test (i - 1 - k) = true := by
  induction n with
  | zero => intro i; simp
  | succ n ih =>
    intro i
    cases i with
    | zero => simp [condRun]
    | succ i =>
      rw [condRun_succ]
      by_cases ht : test i
      · rw [if_pos ht, Nat.succ_le_succ_iff, ih i]
        constructor
        · rintro ⟨h1, h2⟩
          refine ⟨Nat.succ_le_succ h1, ?_⟩
          intro k hk
          match k with
          | 0 => simpa using ht
          | k + 1 =>
            have : i + 1 - 1 - (k + 1) = i - 1 - k := by omega
            rw [this]
            exact h2 k (by omega)
        · rintro ⟨h1, h2⟩
          refine ⟨by omega, ?_⟩
          intro k hk
          have := h2 (k + 1) (by omega)
          have hidx : i + 1 - 1 - (k + 1) = i - 1 - k := by omega
          rwa [hidx] at this
      · rw [if_neg ht]
        constructor
        · intro h; omega
        · rintro ⟨h1, h2⟩
          have := h2 0 (Nat.succ_pos n)
          simp only [Nat.add_sub_cancel, Nat.sub_zero] at this
          exact absurd this ht

theorem onsetTest_cons_zero (cfg : VadConfig) (p : ℚ) (pr : List ℚ) :
    onsetTest cfg (p :: pr) 0 = decide (cfg.onsetThreshold ≤ p) := by
  simp [onsetTest]

theorem onsetTest_cons_succ (cfg : VadConfig) (p : ℚ) (pr : List ℚ) :
    (fun k => onsetTest cfg (p :: pr) (k + 1)) = onsetTest cfg pr := by
  funext k
  simp [onsetTest]

theorem condRun_onset_cons (cfg : VadConfig) (p : ℚ) (pr : List ℚ)
    (oc j : ℕ) :
    condRun (onsetTest cfg (p :: pr)) oc (j + 1 + 1) =
      condRun (onsetTest cfg pr)
        (if cfg.onsetThreshold ≤ p then oc + 1 else 0) (j + 1) := by
  rw [condRun_shift, onsetTest_cons_succ, onsetTest_cons_zero]
  simp only [decide_eq_true_eq]

theorem anyStart_waiting_iff (cfg : VadConfig) (hm : 1 ≤ cfg.minSpeechFrames) :
    ∀ (inputs : List (α × ℚ)) (buf : List α) (oc sc : ℕ),
      anyStart cfg ⟨.waiting, buf, oc, sc⟩ inputs = true ↔
        ∃ j < inputs.length,
          cfg.minSpeechFrames ≤
            condRun (onsetTest cfg (inputs.map Prod.snd)) oc (j + 1) := by
  intro inputs
  induction inputs with
  | nil => intro buf oc sc; simp [anyStart]
  | cons cp rest ih =>
    obtain ⟨c, p⟩ := cp
    intro buf oc sc
    by_cases h : cfg.onsetThreshold ≤ p
    · by_cases h2 : cfg.minSpeechFrames ≤ oc + 1
      · apply iff_of_true
        · simp [anyStart, processLoopStep, if_pos h, if_pos h2]
        · refine ⟨0, by simp, ?_⟩
          rw [condRun_succ]
          simp only [List.map_cons, onsetTest_cons_zero, condRun,
            decide_eq_true_eq, if_pos h]
          exact h2
      · have hstep : processLoopStep cfg (⟨.waiting, buf, oc, sc⟩ : SegState α) c p =
            ⟨⟨.waiting, buf, oc + 1, sc⟩, false, []⟩ := by
          simp [processLoopStep, if_pos h, if_neg h2]
        rw [anyStart, hstep, Bool.false_or, ih buf (oc + 1) sc]
        constructor
        · rintro ⟨j, hj, hcr⟩
          refine ⟨j + 1, by simpa using Nat.succ_lt_succ hj, ?_⟩
          rw [List.map_cons, condRun_onset_cons, if_pos h]
          exact hcr
        · rintro ⟨j, hj, hcr⟩
          match j with
          | 0 =>
            rw [List.map_cons, condRun_succ, onsetTest_cons_zero] at hcr
            simp only [condRun, decide_eq_true_eq, if_pos h] at hcr
            exact absurd hcr h2
          | j + 1 =>
            rw [List.map_cons, condRun_onset_cons, if_pos h] at hcr
            exact ⟨j, by simpa using Nat.lt_of_succ_lt_succ (by simpa using hj), hcr⟩
    · have hstep : processLoopStep cfg (⟨.waiting, buf, oc, sc⟩ : SegState α) c p =
          ⟨⟨.waiting, buf, 0, sc⟩, false, []⟩ := by
        simp [processLoopStep, if_neg h]
      rw [anyStart, hstep, Bool.false_or, ih buf 0 sc]
      constructor
      · rintro ⟨j, hj, hcr⟩
        refine ⟨j + 1, by simpa using Nat.succ_lt_succ hj, ?_⟩
        rw [List.map_cons, condRun_onset_cons, if_neg h]
        exact hcr
      · rintro ⟨j, hj, hcr⟩
        match j with
        | 0 =>
          rw [List.map_cons, condRun_succ, onsetTest_cons_zero] at hcr
          simp only [condRun, decide_eq_true_eq, if_neg h] at hcr
          omega
        | j + 1 =>
          rw [List.map_cons, condRun_onset_cons, if_neg h] at hcr
          exact ⟨j, by simpa using Nat.lt_of_succ_lt_succ (by simpa using hj), hcr⟩

/-- C1: a segmenter started in WAITING emits the WAITING→SPEAKING
transition somewhere in a probability sequence if and only if some run of
`min_speech_frames` consecutive frames each has probability
≥ `onset_threshold`; a frame below the threshold resets the onset counter
(service.py line 161), so no shorter or interrupted run of qualifying
frames causes the transition. -/
theorem C1_waiting_to_speaking_iff_onset_run (cfg : VadConfig)
    (inputs : List (α × ℚ)) (hm : 1 ≤ cfg.minSpeechFrames) :
    anyStart cfg (initSeg α) inputs = true ↔
      ∃ i, i + cfg.minSpeechFrames ≤ inputs.length ∧
        ∀ j < cfg.minSpeechFrames,
          cfg.onsetThreshold ≤ (inputs.map Prod.snd).getD (i + j) 0 := by
  rw [show initSeg α = ⟨.waiting, [], 0, 0⟩ from rfl,
    anyStart_waiting_iff cfg hm inputs [] 0 0]
  constructor
  · rintro ⟨j, hj, hcr⟩
    rw [condRun_window] at hcr
    obtain ⟨h1, h2⟩ := hcr
    refine ⟨j + 1 - cfg.minSpeechFrames, by omega, ?_⟩
    intro j2 hj2
    have hk := h2 (cfg.minSpeechFrames - 1 - j2) (by omega)
    have hidx : j + 1 - 1 - (cfg.minSpeechFrames - 1 - j2) =
        j + 1 - cfg.minSpeechFrames + j2 := by omega
    rw [hidx] at hk
    simpa [onsetTest] using hk
  · rintro ⟨i, h1, h2⟩
    refine ⟨i + cfg.minSpeechFrames - 1, by omega, ?_⟩
    rw [condRun_window]
    refine ⟨by omega, ?_⟩
    intro k hk
    have hv := h2 (cfg.minSpeechFrames - 1 - k) (by omega)
    have hidx : i + cfg.minSpeechFrames - 1 + 1 - 1 - k =
        i + (cfg.minSpeechFrames - 1 - k) := by omega
    rw [hidx]
    simpa [onsetTest] using hv

/-- Witness for C1 on Example 1's first three frames: probabilities
`[0.2, 0.7, 0.8]` contain the qualifying run `[0.7, 0.8]` at index 1, and
the machine indeed starts. -/
theorem C1_waiting_to_speaking_iff_onset_run_witness :
    1 ≤ exCfg.minSpeechFrames ∧ anyStart exCfg (initSeg ℕ) exInputs = true :=
  ⟨by decide,
    (C1_waiting_to_speaking_iff_onset_run exCfg exInputs (by decide)).mpr
      ⟨1, by decide⟩⟩

theorem offsetTest_cons_zero (cfg : VadConfig) (p : ℚ) (pr : List ℚ) :
    offsetTest cfg (p :: pr) 0 = decide (p < cfg.offsetThreshold) := by
  simp [offsetTest]

theorem offsetTest_cons_succ (cfg : VadConfig) (p : ℚ) (pr : List ℚ) :
    (fun k => offsetTest cfg (p :: pr) (k + 1)) = offsetTest cfg pr := by
  funext k
  simp [offsetTest]

theorem condRun_offset_cons (cfg : VadConfig) (p : ℚ) (pr : List ℚ)
    (sc j : ℕ) :
    condRun (offsetTest cfg (p :: pr)) sc (j + 1 + 1) =
      condRun (offsetTest cfg pr)
        (if p < cfg.offsetThreshold then sc + 1 else 0) (j + 1) := by
  rw [condRun_shift, offsetTest_cons_succ, offsetTest_cons_zero]
  simp only [decide_eq_true_eq]

theorem CondC_cons (cfg : VadConfig) (p : ℚ) (pr : List ℚ) (bl sc j : ℕ) :
    CondC cfg (p :: pr) bl sc (j + 1) ↔
      CondC cfg pr (bl + 1) (if p < cfg.offsetThreshold then sc + 1 else 0) j := by
  unfold CondC
  rw [condRun_offset_cons]
  have harith : bl + (j + 1) + 1 = bl + 1 + j + 1 := by omega
  rw [harith]

theorem CondC_zero_iff (cfg : VadConfig) (hn : 1 ≤ cfg.silenceFramesNeeded)
    (p : ℚ) (pr : List ℚ) (bl sc : ℕ) :
    CondC cfg (p :: pr) bl sc 0 ↔
      ((p < cfg.offsetThreshold ∧ cfg.silenceFramesNeeded ≤ sc + 1) ∨
        cfg.maxSamples ≤ (bl + 1) * cfg.chunkSize) := by
  unfold CondC
  rw [condRun_succ, offsetTest_cons_zero]
  have harith : bl + 0 + 1 = bl + 1 := by omega
  rw [harith]
  by_cases h1 : p < cfg.offsetThreshold
  · rw [if_pos (by simpa using h1)]
    simp only [condRun]
    constructor
    · rintro (h | h)
      · exact Or.inl ⟨h1, h⟩
      · exact Or.inr h
    · rintro (⟨_, h⟩ | h)
      · exact Or.inl h
      · exact Or.inr h
  · rw [if_neg (by simpa using h1)]
    constructor
    · rintro (h | h)
      · omega
      · exact Or.inr h
    · rintro (⟨hc, _⟩ | h)
      · exact absurd hc h1
      · exact Or.inr h

theorem firstFlushIdx_speaking_iff (cfg : VadConfig)
    (hn : 1 ≤ cfg.silenceFramesNeeded) :
    ∀ (inputs : List (α × ℚ)) (buf : List α) (oc sc j : ℕ),
      firstFlushIdx cfg ⟨.speaking, buf, oc, sc⟩ inputs = some j ↔
        (j < inputs.length ∧
          CondC cfg (inputs.map Prod.snd) buf.length sc j ∧
          ∀ jp < j, ¬ CondC cfg (inputs.map Prod.snd) buf.length sc jp) := by
  intro inputs
  induction inputs with
  | nil => intro buf oc sc j; simp [firstFlushIdx]
  | cons cp rest ih =>
    obtain ⟨c, p⟩ := cp
    intro buf oc sc j
    simp only [List.map_cons, List.length_cons]
    by_cases hF : (p < cfg.offsetThreshold ∧
        cfg.silenceFramesNeeded ≤ sc + 1) ∨
        cfg.maxSamples ≤ (buf.length + 1) * cfg.chunkSize
    · have hne : (processLoopStep cfg (⟨.speaking, buf, oc, sc⟩ : SegState α)
          c p).flushes.isEmpty = false := by
        by_cases h1 : p < cfg.offsetThreshold
        · by_cases h2 : cfg.silenceFramesNeeded ≤ sc + 1
          · simp only [processLoopStep, if_pos h1, if_pos h2]
            split
            · rfl
            · rfl
          · have h3 : cfg.maxSamples ≤ (buf.length + 1) * cfg.chunkSize := by
              rcases hF with ⟨_, hc⟩ | hc
              · exact absurd hc h2
              · exact hc
            simp only [processLoopStep, if_pos h1, if_neg h2, if_pos h3]
            rfl
        · have h3 : cfg.maxSamples ≤ (buf.length + 1) * cfg.chunkSize := by
            rcases hF with ⟨hc, _⟩ | hc
            · exact absurd hc h1
            · exact hc
          simp only [processLoopStep, if_neg h1, if_pos h3]
          rfl
      have hC0 : CondC cfg (p :: rest.map Prod.snd) buf.length sc 0 :=
        (CondC_zero_iff cfg hn p (rest.map Prod.snd) buf.length sc).mpr hF
      rw [firstFlushIdx, hne]
      simp only [Bool.false_eq_true, if_false]
      match j with
      | 0 =>
        apply iff_of_true rfl
        exact ⟨Nat.succ_pos _, hC0, fun jp hjp => absurd hjp (by omega)⟩
      | j + 1 =>
        apply iff_of_false (by simp)
        rintro ⟨_, _, hall⟩
        exact hall 0 (Nat.succ_pos j) hC0
    · have h3 : ¬ cfg.maxSamples ≤ (buf.length + 1) * cfg.chunkSize :=
        fun h => hF (Or.inr h)
      have hstep : processLoopStep cfg (⟨.speaking, buf, oc, sc⟩ : SegState α)
          c p = ⟨⟨.speaking, buf ++ [c], oc,
            if p < cfg.offsetThreshold then sc + 1 else 0⟩, false, []⟩ := by
        by_cases h1 : p < cfg.offsetThreshold
        · have h2 : ¬ cfg.silenceFramesNeeded ≤ sc + 1 :=
            fun h => hF (Or.inl ⟨h1, h⟩)
          simp [processLoopStep, if_pos h1, if_neg h2, if_neg h3]
        · simp [processLoopStep, if_neg h1, if_neg h3]
      rw [firstFlushIdx, hstep]
      simp only [List.isEmpty_nil, if_true]
      have hnC0 : ¬ CondC cfg (p :: rest.map Prod.snd) buf.length sc 0 :=
        fun h => hF ((CondC_zero_iff cfg hn p (rest.map Prod.snd)
          buf.length sc).mp h)
      match j with
      | 0 =>
        apply iff_of_false
        · simp
        · rintro ⟨_, hc, _⟩
          exact hnC0 hc
      | j + 1 =>
        have hmap : ((firstFlushIdx cfg (⟨.speaking, buf ++ [c], oc,
            if p < cfg.offsetThreshold then sc + 1 else 0⟩ : SegState α)
            rest).map (· + 1) = some (j + 1)) ↔
            firstFlushIdx cfg (⟨.speaking, buf ++ [c], oc,
              if p < cfg.offsetThreshold then sc + 1 else 0⟩ : SegState α)
              rest = some j := by
          rw [Option.map_eq_some']
          constructor
          · rintro ⟨a, ha, hav⟩
            have : a = j := by omega
            rwa [this] at ha
          · intro h
            exact ⟨j, h, rfl⟩
        rw [hmap, ih (buf ++ [c]) oc
          (if p < cfg.offsetThreshold then sc + 1 else 0) j]
        simp only [List.length_append, List.length_cons, List.length_nil,
          Nat.zero_add]
        constructor
        · rintro ⟨hlen, hc, hall⟩
          refine ⟨by omega, (CondC_cons cfg p (rest.map Prod.snd)
            buf.length sc j).mpr hc, ?_⟩
          intro jp hjp
          match jp with
          | 0 => exact hnC0
          | k + 1 =>
            intro hck
            exact hall k (by omega)
              ((CondC_cons cfg p (rest.map Prod.snd) buf.length sc k).mp hck)
        · rintro ⟨hlen, hc, hall⟩
          refine ⟨by omega, (CondC_cons cfg p (rest.map Prod.snd)
            buf.length sc j).mp hc, ?_⟩
          intro k hk hck
          exact hall (k + 1) (by omega)
            ((CondC_cons cfg p (rest.map Prod.snd) buf.length sc k).mpr hck)

theorem flushCond_iff_CondC (cfg : VadConfig) (probs : List ℚ) (j : ℕ) :
    flushCond cfg probs j ↔ CondC cfg probs 0 0 j := by
  unfold flushCond CondC
  have hz : (0 : ℕ) + j + 1 = j + 1 := by omega
  rw [hz, condRun_window]
  constructor
  · rintro (⟨h1, h2⟩ | h)
    · refine Or.inl ⟨h1, ?_⟩
      intro k hk
      have hidx : j + 1 - 1 - k = j - k := by omega
      rw [hidx]
      simpa [offsetTest] using h2 k hk
    · exact Or.inr h
  · rintro (⟨h1, h2⟩ | h)
    · refine Or.inl ⟨h1, ?_⟩
      intro k hk
      have := h2 k hk
      have hidx : j + 1 - 1 - k = j - k := by omega
      rw [hidx] at this
      simpa [offsetTest] using this
    · exact Or.inr h

/-- C2: a segmenter entering SPEAKING fresh (empty buffer, zero counters)
flushes the buffer and transitions back to WAITING at exactly the first
frame `j` at which either (a) the `silence_frames_needed` frames ending at
`j` are all below `offset_threshold`, or (b) the appended buffer's sample
count `(j + 1) * chunk_size` has reached `max_samples` — whichever occurs
first.  In particular, with `chunk_size = 512` and
`max_samples = 5 × 16000 = 80000`, continuous speech (every probability ≥
`offset_threshold`) forces the hard-cap flush while processing the 157th
chunk, i.e. at 0-based chunk index 156. -/
theorem C2_speaking_first_flush (cfg : VadConfig) (inputs : List (α × ℚ))
    (hn : 1 ≤ cfg.silenceFramesNeeded) :
    (∀ j, firstFlushIdx cfg (speakInit α) inputs = some j ↔
      (j < inputs.length ∧ flushCond cfg (inputs.map Prod.snd) j ∧
        ∀ jp < j, ¬ flushCond cfg (inputs.map Prod.snd) jp)) ∧
    (∀ (cfg2 : VadConfig) (inputs2 : List (ℕ × ℚ)),
      cfg2.chunkSize = 512 → cfg2.maxSamples = 80000 →
      1 ≤ cfg2.silenceFramesNeeded →
      (∀ q ∈ inputs2.map Prod.snd, cfg2.offsetThreshold ≤ q) →
      157 ≤ inputs2.length →
      firstFlushIdx cfg2 (speakInit ℕ) inputs2 = some 156) := by
  constructor
  · intro j
    rw [show speakInit α = ⟨.speaking, [], 0, 0⟩ from rfl,
      firstFlushIdx_speaking_iff cfg hn inputs [] 0 0 j]
    simp only [List.length_nil]
    constructor
    · rintro ⟨h1, h2, h3⟩
      exact ⟨h1, (flushCond_iff_CondC cfg _ j).mpr h2,
        fun jp hjp hc =>
          h3 jp hjp ((flushCond_iff_CondC cfg _ jp).mp hc)⟩
    · rintro ⟨h1, h2, h3⟩
      exact ⟨h1, (flushCond_iff_CondC cfg _ j).mp h2,
        fun jp hjp hc =>
          h3 jp hjp ((flushCond_iff_CondC cfg _ jp).mpr hc)⟩
  · intro cfg2 inputs2 hch hmax hn2 hhigh hlen
    rw [show speakInit ℕ = ⟨.speaking, [], 0, 0⟩ from rfl,
      firstFlushIdx_speaking_iff cfg2 hn2 inputs2 [] 0 0 156]
    refine ⟨by omega, Or.inr (by simp [hch, hmax]), ?_⟩
    intro jp hjp hc
    rcases hc with hsil | hcap
    · rw [condRun_window] at hsil
      obtain ⟨_, hall⟩ := hsil
      have h0 := hall 0 (by omega)
      have hidx : jp + 1 - 1 - 0 = jp := by omega
      rw [hidx] at h0
      simp only [offsetTest, decide_eq_true_eq] at h0
      have hjlt : jp < (inputs2.map Prod.snd).length := by
        rw [List.length_map]; omega
      rw [List.getD_eq_getElem _ 0 hjlt] at h0
      have hmem := List.getElem_mem hjlt
      exact absurd (hhigh _ hmem) (not_le.mpr h0)
    · rw [hch, hmax] at hcap
      simp only [List.length_nil] at hcap
      omega

/-- Witness for C2: with `silence_frames = 1`, a speech frame then a
silence frame flushes at index 1. -/
theorem C2_speaking_first_flush_witness :
    1 ≤ wCfg.silenceFramesNeeded ∧
    firstFlushIdx wCfg (speakInit ℕ) wInputs = some 1 :=
  ⟨by decide,
    ((C2_speaking_first_flush wCfg wInputs (by decide)).1 1).mpr (by decide)⟩

theorem labelTest_cons_zero (l0 : String) (ls : List String) (l : String) :
    labelTest (l0 :: ls) l 0 = decide (l0 = l) := by
  simp [labelTest]

theorem labelTest_cons_succ (l0 : String) (ls : List String) (l : String) :
    (fun k => labelTest (l0 :: ls) l (k + 1)) = labelTest ls l := by
  funext k
  simp [labelTest]

theorem condRun_label_cons (l0 : String) (ls : List String) (l : String)
    (base j : ℕ) :
    condRun (labelTest (l0 :: ls) l) base (j + 1 + 1) =
      condRun (labelTest ls l) (if l0 = l then base + 1 else 0) (j + 1) := by
  rw [condRun_shift, labelTest_cons_succ, labelTest_cons_zero]
  simp only [decide_eq_true_eq]

theorem lookup_eq_of_mem_nodup (M : List (String × ℕ))
    (hnd : (M.map Prod.fst).Nodup) (lt : String × ℕ) (h : lt ∈ M) :
    List.lookup lt.1 M = some lt.2 := by
  induction M with
  | nil => cases h
  | cons hd tl ih =>
    obtain ⟨k, v⟩ := hd
    simp only [List.map_cons, List.nodup_cons] at hnd
    rcases List.mem_cons.mp h with rfl | htl
    · simp [List.lookup]
    · have hne : lt.1 ≠ k := by
        intro he
        exact hnd.1 (he ▸ List.mem_map_of_mem Prod.fst htl)
      simp [List.lookup, beq_false_of_ne hne, ih hnd.2 htl]

theorem findTrigger_isSome_iff (M : List (String × ℕ)) (f : String → ℕ)
    (hnd : (M.map Prod.fst).Nodup) (hpos : ∀ lt ∈ M, 0 < lt.2)
    (hnone : NONE_LABEL ∉ M.map Prod.fst) :
    (findTrigger M (M.map (fun lt => (lt.1, f lt.1)))).isSome = true ↔
      ∃ lt ∈ M, lt.2 ≤ f lt.1 := by
  unfold findTrigger
  rw [Option.isSome_map', List.find?_isSome]
  constructor
  · rintro ⟨x, hx, hpx⟩
    obtain ⟨lt, hltM, rfl⟩ := List.mem_map.mp hx
    rw [lookup_eq_of_mem_nodup M hnd lt hltM] at hpx
    simp only [Bool.and_eq_true, decide_eq_true_eq] at hpx
    exact ⟨lt, hltM, hpx.1.2⟩
  · rintro ⟨lt, hltM, hle⟩
    refine ⟨(lt.1, f lt.1), List.mem_map_of_mem _ hltM, ?_⟩
    rw [lookup_eq_of_mem_nodup M hnd lt hltM]
    have h1 : lt.2 ≠ 0 := (hpos lt hltM).ne'
    have h2 : lt.1 ≠ NONE_LABEL :=
      fun he => hnone (he ▸ List.mem_map_of_mem Prod.fst hltM)
    simp [h1, hle, h2]

theorem updateCounters_map (M : List (String × ℕ)) (f : String → ℕ)
    (label : String) :
    updateCounters (M.map (fun lt => (lt.1, f lt.1))) label =
      M.map (fun lt => (lt.1, if label = lt.1 then f lt.1 + 1 else 0)) := by
  unfold updateCounters
  rw [List.map_map]
  apply List.map_eq_map_iff.mpr
  intro lt _
  simp only [Function.comp_apply]
  split
  · rfl
  · rfl

theorem runDetect_isSome_iff (M : List (String × ℕ))
    (hnd : (M.map Prod.fst).Nodup) (hpos : ∀ lt ∈ M, 0 < lt.2)
    (hnone : NONE_LABEL ∉ M.map Prod.fst) :
    ∀ (inputs : List (String × ℚ)) (f : String → ℕ),
      (runDetect M inputs (M.map (fun lt => (lt.1, f lt.1)))).isSome = true ↔
        ∃ j < inputs.length, ∃ lt ∈ M,
          lt.2 ≤ condRun (labelTest (inputs.map Prod.fst) lt.1)
            (f lt.1) (j + 1) := by
  intro inputs
  induction inputs with
  | nil => intro f; simp [runDetect]
  | cons lp rest ih =>
    obtain ⟨label, conf⟩ := lp
    intro f
    rw [runDetect, updateCounters_map M f label]
    have hupd : (M.map fun lt => (lt.1, if label = lt.1 then f lt.1 + 1 else 0))
        = M.map (fun lt =>
            (lt.1, (fun l => if label = l then f l + 1 else 0) lt.1)) := rfl
    rw [hupd]
    cases htrig : findTrigger M
        (M.map fun lt =>
          (lt.1, (fun l => if label = l then f l + 1 else 0) lt.1)) with
    | some l =>
      apply iff_of_true rfl
      have hex := (findTrigger_isSome_iff M
        (fun l => if label = l then f l + 1 else 0) hnd hpos hnone).mp
        (by rw [htrig]; rfl)
      obtain ⟨lt, hltM, hle⟩ := hex
      refine ⟨0, Nat.succ_pos _, lt, hltM, ?_⟩
      rw [List.map_cons, condRun_succ, labelTest_cons_zero]
      simpa only [condRun, decide_eq_true_eq] using hle
    | none =>
      rw [Option.isSome_map', ih (fun l => if label = l then f l + 1 else 0)]
      have hnotrig : ¬ ∃ lt ∈ M,
          lt.2 ≤ (fun l => if label = l then f l + 1 else 0) lt.1 := by
        intro hex
        have := (findTrigger_isSome_iff M
          (fun l => if label = l then f l + 1 else 0) hnd hpos hnone).mpr hex
        rw [htrig] at this
        simp at this
      constructor
      · rintro ⟨j, hj, lt, hltM, hcr⟩
        refine ⟨j + 1, by simpa using Nat.succ_lt_succ hj, lt, hltM, ?_⟩
        rw [List.map_cons, condRun_label_cons]
        exact hcr
      · rintro ⟨j, hj, lt, hltM, hcr⟩
        match j with
        | 0 =>
          exfalso
          apply hnotrig
          refine ⟨lt, hltM, ?_⟩
          rw [List.map_cons, condRun_succ, labelTest_cons_zero] at hcr
          simpa only [condRun, decide_eq_true_eq] using hcr
        | j + 1 =>
          rw [List.map_cons, condRun_label_cons] at hcr
          exact ⟨j, by simpa using Nat.lt_of_succ_lt_succ (by simpa using hj),
            lt, hltM, hcr⟩

/-- C3: for a tracker initialised with distinct tracked labels carrying
positive confirm thresholds (the reserved `"NONE"` label is not tracked),
a trigger is produced if and only if some tracked label's run of
consecutive identical incoming labels reaches that label's threshold; the
`"NONE"` label and any unrecognized label match no tracked counter, so
they reset every counter and never trigger, and the single-shot `return`
yields at most one trigger per run.  In particular, with thresholds
`{A: 3, B: 2}` and labels `[A, A, B, B]`, no trigger fires within the
first 3 frames and the trigger for `B` fires on the 4th frame (0-based
index 3). -/
theorem C3_tracker_trigger_iff_run (M : List (String × ℕ))
    (inputs : List (String × ℚ))
    (hnd : (M.map Prod.fst).Nodup) (hpos : ∀ lt ∈ M, 0 < lt.2)
    (hnone : NONE_LABEL ∉ M.map Prod.fst) :
    ((runDetect M inputs (initCounters M)).isSome = true ↔
      ∃ j < inputs.length, ∃ lt ∈ M, lt.2 ≤ j + 1 ∧
        ∀ k < lt.2, (inputs.map Prod.fst).getD (j - k) "" = lt.1) ∧
    runDetect exM (exDetInputs.take 3) (initCounters exM) = none ∧
    runDetect exM exDetInputs (initCounters exM) = some (3, "B") := by
  refine ⟨?_, by decide, by decide⟩
  have hinit : initCounters M = M.map (fun lt => (lt.1, (fun _ => 0) lt.1)) :=
    rfl
  rw [hinit, runDetect_isSome_iff M hnd hpos hnone inputs (fun _ => 0)]
  constructor
  · rintro ⟨j, hj, lt, hltM, hcr⟩
    rw [condRun_window] at hcr
    obtain ⟨h1, h2⟩ := hcr
    refine ⟨j, hj, lt, hltM, h1, ?_⟩
    intro k hk
    have hv := h2 k hk
    have hidx : j + 1 - 1 - k = j - k := by omega
    rw [hidx] at hv
    simpa [labelTest] using hv
  · rintro ⟨j, hj, lt, hltM, h1, h2⟩
    refine ⟨j, hj, lt, hltM, ?_⟩
    rw [condRun_window]
    refine ⟨h1, ?_⟩
    intro k hk
    have hv := h2 k hk
    have hidx : j + 1 - 1 - k = j - k := by omega
    rw [hidx]
    simpa [labelTest] using hv

/-- Witness for C3 on Example 2. -/
theorem C3_tracker_trigger_iff_run_witness :
    (exM.map Prod.fst).Nodup ∧
    runDetect exM exDetInputs (initCounters exM) = some (3, "B") :=
  ⟨by decide,
    (C3_tracker_trigger_iff_run exM exDetInputs (by decide) (by decide)
      (by decide)).2.2⟩

/-! ## Segmenter buffer invariants -/

theorem processLoopStep_SegInv (cfg : VadConfig) (s : SegState α) (c : α)
    (p : ℚ) (h : SegInv cfg s) :
    SegInv cfg (processLoopStep cfg s c p).st := by
  obtain ⟨st, buf, oc, sc⟩ := s
  obtain ⟨hw, hbound⟩ := h
  dsimp only at hw hbound
  cases st with
  | waiting =>
    have hbuf : buf = [] := hw rfl
    subst hbuf
    simp only [processLoopStep]
    unfold SegInv
    split_ifs <;> exact ⟨fun _ => rfl, Or.inl rfl⟩
  | speaking =>
    simp only [processLoopStep]
    unfold SegInv
    split_ifs <;>
      first
        | exact ⟨fun _ => rfl, Or.inl rfl⟩
        | exact ⟨(fun hst => nomatch hst),
            Or.inr (by
              simp only [List.length_append, List.length_cons, List.length_nil,
                Nat.zero_add]
              omega)⟩

theorem processLoopStep_flush_le (cfg : VadConfig) (s : SegState α) (c : α)
    (p : ℚ) (h : SegInv cfg s) :
    ∀ b ∈ (processLoopStep cfg s c p).flushes,
      b.length * cfg.chunkSize ≤ cfg.maxSamples + cfg.chunkSize := by
  obtain ⟨st, buf, oc, sc⟩ := s
  obtain ⟨hw, hbound⟩ := h
  dsimp only at hw hbound
  cases st with
  | waiting =>
    simp only [processLoopStep]
    split_ifs <;> simp
  | speaking =>
    have hflush : (buf.length + 1) * cfg.chunkSize ≤
        cfg.maxSamples + cfg.chunkSize := by
      rcases hbound with rfl | hlt
      · simp only [List.length_nil]
        omega
      · rw [Nat.add_mul]
        omega
    have hmem : ∀ b ∈ (processLoopStep cfg
        (⟨.speaking, buf, oc, sc⟩ : SegState α) c p).flushes,
        b = buf ++ [c] ∨ b = [] := by
      simp only [processLoopStep]
      split_ifs <;> intro b hb <;>
        simp only [List.mem_cons, List.not_mem_nil, or_false] at hb <;> tauto
    intro b hb
    rcases hmem b hb with rfl | rfl
    · simpa using hflush
    · simp

theorem processLoopStep_suffix (cfg : VadConfig) (s : SegState α) (c : α)
    (p : ℚ) (h : SegInv cfg s) (pre : List α)
    (hs : s.speechBuffer <:+ pre) :
    (processLoopStep cfg s c p).st.speechBuffer <:+ pre ++ [c] := by
  obtain ⟨st, buf, oc, sc⟩ := s
  cases st with
  | waiting =>
    have hbuf : buf = [] := h.1 rfl
    subst hbuf
    simp only [processLoopStep]
    split_ifs <;> exact List.nil_suffix
  | speaking =>
    obtain ⟨t, ht⟩ := hs
    dsimp only at ht
    simp only [processLoopStep]
    split_ifs <;>
      first
        | exact List.nil_suffix
        | exact ⟨t, by rw [← ht, List.append_assoc]⟩

theorem processLoopStep_exit_clears (cfg : VadConfig) (s : SegState α)
    (c : α) (p : ℚ) (hs : s.state = SpeechState.speaking)
    (hw : (processLoopStep cfg s c p).st.state = SpeechState.waiting) :
    (processLoopStep cfg s c p).st.speechBuffer = [] := by
  obtain ⟨st, buf, oc, sc⟩ := s
  cases st with
  | waiting => cases hs
  | speaking =>
    simp only [processLoopStep] at hw ⊢
    split_ifs at hw ⊢ <;> rfl

theorem segRun_inv (cfg : VadConfig) :
    ∀ (inputs : List (α × ℚ)) (s : SegState α) (pre : List α),
      SegInv cfg s → s.speechBuffer <:+ pre →
      SegInv cfg (segFinal cfg s inputs) ∧
      (segFinal cfg s inputs).speechBuffer <:+ pre ++ inputs.map Prod.fst ∧
      ∀ e ∈ flushTrace cfg s inputs,
        e.2.length * cfg.chunkSize ≤ cfg.maxSamples + cfg.chunkSize := by
  intro inputs
  induction inputs with
  | nil =>
    intro s pre h hs
    refine ⟨h, by simpa using hs, by simp [flushTrace]⟩
  | cons cp rest ih =>
    obtain ⟨c, p⟩ := cp
    intro s pre h hs
    have hinv := processLoopStep_SegInv cfg s c p h
    have hfl := processLoopStep_flush_le cfg s c p h
    have hsuf := processLoopStep_suffix cfg s c p h pre hs
    obtain ⟨h1, h2, h3⟩ := ih (processLoopStep cfg s c p).st (pre ++ [c])
      hinv hsuf
    refine ⟨h1, ?_, ?_⟩
    · simp only [segFinal, List.map_cons]
      rw [show pre ++ c :: rest.map Prod.fst =
        (pre ++ [c]) ++ rest.map Prod.fst by simp]
      exact h2
    · intro e he
      simp only [flushTrace, List.mem_append, List.mem_map] at he
      rcases he with ⟨b, hb, rfl⟩ | ⟨e', he', rfl⟩
      · exact hfl b hb
      · exact h3 e' he'

/-- C7 (counterexample): a hard-cap flush hands the transcriber a buffer
whose sample count EXCEEDS `max_samples`: with chunk size 2 and
`max_samples = 3`, continuous speech flushes a 2-chunk buffer of
4 samples. -/
theorem C7_flush_bound_cex :
    ¬ ∀ e ∈ flushTrace capCfg (initSeg ℕ) capInputs,
      e.2.length * capCfg.chunkSize ≤ capCfg.maxSamples := by
  decide

/-- C7 (amended): in every reachable segmenter state the utterance buffer
is a contiguous suffix of the chunks that have arrived, in arrival order,
and its total sample count is at most `max_samples`; every buffer handed
to the transcriber has sample count at most `max_samples + chunk_size`
(the hard cap checks the buffer only after appending, so a forced flush
may exceed `max_samples` by up to one chunk); and the buffer is cleared to
empty on every SPEAKING→WAITING transition. -/
theorem C7_buffer_invariants_amended (cfg : VadConfig)
    (inputs : List (α × ℚ)) :
    ((segFinal cfg (initSeg α) inputs).speechBuffer.length * cfg.chunkSize ≤
      cfg.maxSamples) ∧
    ((segFinal cfg (initSeg α) inputs).speechBuffer <:+ inputs.map Prod.fst) ∧
    (∀ e ∈ flushTrace cfg (initSeg α) inputs,
      e.2.length * cfg.chunkSize ≤ cfg.maxSamples + cfg.chunkSize) ∧
    (∀ (s : SegState α) (c : α) (p : ℚ),
      s.state = SpeechState.speaking →
      (processLoopStep cfg s c p).st.state = SpeechState.waiting →
      (processLoopStep cfg s c p).st.speechBuffer = []) := by
  have hinit : SegInv cfg (initSeg α) := ⟨fun _ => rfl, Or.inl rfl⟩
  obtain ⟨h1, h2, h3⟩ :=
    segRun_inv cfg inputs (initSeg α) [] hinit List.nil_suffix
  refine ⟨?_, by simpa using h2, h3,
    fun s c p => processLoopStep_exit_clears cfg s c p⟩
  rcases h1.2 with he | hlt
  · rw [he]
    simp
  · omega

/-- Witness for C7 (amended): the suffix fact on a concrete run, and the
buffer-clearing fact at a concrete SPEAKING→WAITING step. -/
theorem C7_buffer_invariants_amended_witness :
    ((segFinal wCfg (initSeg ℕ) wInputs).speechBuffer <:+
      wInputs.map Prod.fst) ∧
    (processLoopStep wCfg (⟨.speaking, [9], 0, 5⟩ : SegState ℕ) 1
      (mkRat 1 10)).st.speechBuffer = [] :=
  ⟨(C7_buffer_invariants_amended wCfg wInputs).2.1,
    (C7_buffer_invariants_amended wCfg wInputs).2.2.2
      ⟨.speaking, [9], 0, 5⟩ 1 (mkRat 1 10) rfl (by decide)⟩

end Winston
